import Mathlib

/-!
Verification of the hex-map core of the IsometricHexTest repository
(src/hexes/src/map.rs and src/hexes/src/consts.rs).

Embedding conventions:
* `f32` values are modelled as exact rationals (`ℚ`).  The source's
  geometric constants all cancel exactly in real arithmetic: the code uses
  `size_x = FLOOR_WIDTH / sqrt 3` together with the coefficients
  `b0 = sqrt 3 / 3`, `b1 = -1/3`, `b3 = 2/3`, and
  `size_y = 18.66666666666666666` (the `f32` spelling of
  `FLOOR_VERT_STEP / 1.5 = 56/3`).  Every place a `sqrt 3` is introduced it
  is immediately multiplied by a matching `1 / sqrt 3`, so the composed
  transforms are rational; the definitions below carry out those exact
  cancellations and each records the derivation in a comment.
* `u8` / `usize` values are `ℕ`, `i32` values are `ℤ` (all quantities in
  play are tiny, far from any wrap-around).
* `Vec<HexTileData>` is a `List HexTileData`; the indexing
  `tiles[width * y + x]` is `List.getD` (the code only indexes after its
  own bounds check, where the lookup is in range for well-formed grids).
* the `rand::StdRng` generator is external library code; it is modelled
  as a fixed deterministic stream (see `std_rng_raw`).
-/

/-! ### Constants (src/hexes/src/consts.rs) -/

def FLOOR_WIDTH : ℚ := 36
def FLOOR_HEIGHT : ℚ := 36
def FLOOR_VERT_STEP : ℚ := 28
def FLOOR_DEPTH_STEP : ℚ := 12
def WALL_VERT_OFFSET : ℚ := 12
def WALL_VERT_STEP : ℚ := 12
def MAX_FLOOR_HEIGHT : ℕ := 2
def MAX_BRICK_HEIGHT : ℕ := 4

namespace draw_layers

def FLOOR : ℚ := 0
def WALL : ℚ := 1

end draw_layers

/-! ### Rounding (Rust `f32::round`: round half away from zero) -/

/-- Rust's `f32::round`: nearest integer, half-way cases away from zero. -/
def rust_round (x : ℚ) : ℤ :=
  if 0 ≤ x then ⌊x + 1 / 2⌋ else -⌊-x + 1 / 2⌋

theorem rust_round_int_add (z : ℤ) (c : ℚ) (h1 : -(1 / 2) < c) (h2 : c < 1 / 2) :
    rust_round ((z : ℚ) + c) = z := by
  unfold rust_round
  have hc0 : ⌊c + 1 / 2⌋ = 0 := by
    rw [Int.floor_eq_zero_iff, Set.mem_Ico]
    constructor <;> linarith
  have hc0' : ⌊-c + 1 / 2⌋ = 0 := by
    rw [Int.floor_eq_zero_iff, Set.mem_Ico]
    constructor <;> linarith
  split
  · rw [add_assoc, Int.floor_int_add, hc0, add_zero]
  · rw [show -((z : ℚ) + c) = ((-z : ℤ) : ℚ) + -c by push_cast; ring,
      add_assoc, Int.floor_int_add, hc0']
    simp

theorem rust_round_intCast (z : ℤ) : rust_round (z : ℚ) = z := by
  have := rust_round_int_add z 0 (by norm_num) (by norm_num)
  simpa using this

/-! ### Cube coordinate rounding (src/hexes/src/map.rs, `cube_round`) -/

/-- Source `cube_round(q, r, s)`: round all three components to the nearest
integer, then recompute one component from the other two.  Mirrors
src/hexes/src/map.rs lines 170-188 (the `f32 → f64` widening before the
`abs` is the identity in the exact model). -/
def cube_round (q r s : ℚ) : ℤ × ℤ × ℤ :=
  let qi := rust_round q
  let ri := rust_round r
  let si := rust_round s
  let q_diff := |(qi : ℚ) - q|
  let r_diff := |(ri : ℚ) - r|
  let s_diff := |(si : ℚ) - s|
  if q_diff > r_diff ∧ q_diff > s_diff then (-ri - si, ri, si)
  else if r_diff > s_diff then (qi, -qi - si, si)
  else (qi, ri, -qi - ri)

theorem cube_round_eq (q r s : ℚ) :
    cube_round q r s =
      if |(rust_round q : ℚ) - q| > |(rust_round r : ℚ) - r| ∧
          |(rust_round q : ℚ) - q| > |(rust_round s : ℚ) - s| then
        (-rust_round r - rust_round s, rust_round r, rust_round s)
      else if |(rust_round r : ℚ) - r| > |(rust_round s : ℚ) - s| then
        (rust_round q, -rust_round q - rust_round s, rust_round s)
      else (rust_round q, rust_round r, -rust_round q - rust_round r) := rfl

/-- Reference formulation of the corrected component choice: recompute the
LAST component (in the order q, r, s) whose rounding error is maximal.
Stated independently of the source's if/else chain so that
`cube_round_corrects_last_max` is a genuine equivalence. -/
def cube_round_last_max (q r s : ℚ) : ℤ × ℤ × ℤ :=
  let qi := rust_round q
  let ri := rust_round r
  let si := rust_round s
  let q_diff := |(qi : ℚ) - q|
  let r_diff := |(ri : ℚ) - r|
  let s_diff := |(si : ℚ) - s|
  if s_diff ≥ q_diff ∧ s_diff ≥ r_diff then (qi, ri, -qi - ri)
  else if r_diff ≥ q_diff then (qi, -qi - si, si)
  else (-ri - si, ri, si)

theorem cube_round_last_max_eq (q r s : ℚ) :
    cube_round_last_max q r s =
      if |(rust_round s : ℚ) - s| ≥ |(rust_round q : ℚ) - q| ∧
          |(rust_round s : ℚ) - s| ≥ |(rust_round r : ℚ) - r| then
        (rust_round q, rust_round r, -rust_round q - rust_round r)
      else if |(rust_round r : ℚ) - r| ≥ |(rust_round q : ℚ) - q| then
        (rust_round q, -rust_round q - rust_round s, rust_round s)
      else (-rust_round r - rust_round s, rust_round r, rust_round s) := rfl

/-- C2: `cube_round` always returns a triple summing to zero: whichever
branch is taken, the corrected component is recomputed as the negated sum
of the other two. -/
theorem cube_round_sum_zero (q r s : ℚ) (_hs : s = -q - r) :
    (cube_round q r s).1 + (cube_round q r s).2.1 + (cube_round q r s).2.2 = 0 := by
  rw [cube_round_eq]
  split_ifs <;> dsimp only <;> ring

theorem cube_round_sum_zero_witness :
    ((-5 / 6 : ℚ) = -(1 / 2) - 1 / 3) ∧
      (cube_round (1 / 2) (1 / 3) (-5 / 6)).1 + (cube_round (1 / 2) (1 / 3) (-5 / 6)).2.1 +
        (cube_round (1 / 2) (1 / 3) (-5 / 6)).2.2 = 0 :=
  ⟨by norm_num, cube_round_sum_zero (1 / 2) (1 / 3) (-5 / 6) (by norm_num)⟩

/-- C3 counterexample: at `(1/2, 1/2, -1)` the q and r rounding errors tie
(both `1/2`) and strictly exceed the s error (`0`), yet `cube_round`
returns the r-corrected triple `(1, 0, -1)`, not the q-corrected triple
`(0, 1, -1)` that the claimed q-beats-r tie-break would produce. -/
theorem cube_round_tie_counterexample :
    |(rust_round (1 / 2 : ℚ) : ℚ) - 1 / 2| = |(rust_round (1 / 2 : ℚ) : ℚ) - 1 / 2| ∧
      |(rust_round (1 / 2 : ℚ) : ℚ) - 1 / 2| > |(rust_round (-1 : ℚ) : ℚ) - (-1)| ∧
      cube_round (1 / 2) (1 / 2) (-1) = (1, 0, -1) ∧
      cube_round (1 / 2) (1 / 2) (-1) ≠ (0, 1, -1) := by
  have hq : rust_round (1 / 2 : ℚ) = 1 := by norm_num [rust_round]
  have hs : rust_round (-1 : ℚ) = -1 := by norm_num [rust_round]
  have hres : cube_round (1 / 2) (1 / 2) (-1) = (1, 0, -1) := by
    rw [cube_round_eq, hq, hs]
    norm_num
  refine ⟨rfl, ?_, hres, ?_⟩
  · rw [hq, hs]; norm_num
  · rw [hres]; decide

/-- C3 (amended): `cube_round` recomputes exactly one component — the last
one, in the order q, r, s, whose rounding error is maximal.  Equivalently:
q only when its error is strictly greatest, r when its error is at least
q's and strictly exceeds s's, and s otherwise; so on ties the later
component wins (s over r over q). -/
theorem cube_round_corrects_last_max (q r s : ℚ) :
    cube_round q r s = cube_round_last_max q r s := by
  rw [cube_round_eq, cube_round_last_max_eq]
  set dq := |(rust_round q : ℚ) - q| with hdq
  set dr := |(rust_round r : ℚ) - r| with hdr
  set ds := |(rust_round s : ℚ) - s| with hds
  by_cases h1 : dq > dr ∧ dq > ds
  · rw [if_pos h1]
    have hA : ¬(ds ≥ dq ∧ ds ≥ dr) := fun h => absurd h1.2 (not_lt.mpr h.1)
    have hB : ¬(dr ≥ dq) := not_le.mpr h1.1
    rw [if_neg hA, if_neg hB]
  · rw [if_neg h1]
    rcases not_and_or.mp h1 with hqr | hqs
    · -- dq ≤ dr
      have hqr' : dq ≤ dr := not_lt.mp hqr
      by_cases h2 : dr > ds
      · rw [if_pos h2]
        have hA : ¬(ds ≥ dq ∧ ds ≥ dr) := fun h => absurd h2 (not_lt.mpr h.2)
        rw [if_neg hA, if_pos hqr']
      · rw [if_neg h2]
        have hA : ds ≥ dq ∧ ds ≥ dr := ⟨le_trans hqr' (not_lt.mp h2), not_lt.mp h2⟩
        rw [if_pos hA]
    · -- dq ≤ ds
      have hqs' : dq ≤ ds := not_lt.mp hqs
      by_cases h2 : dr > ds
      · rw [if_pos h2]
        have hA : ¬(ds ≥ dq ∧ ds ≥ dr) := fun h => absurd h2 (not_lt.mpr h.2)
        have hB : dr ≥ dq := le_trans hqs' (le_of_lt h2)
        rw [if_neg hA, if_pos hB]
      · rw [if_neg h2]
        have hA : ds ≥ dq ∧ ds ≥ dr := ⟨hqs', not_lt.mp h2⟩
        rw [if_pos hA]

/-! ### Offset and cube coordinates (src/hexes/src/map.rs lines 154-168)

Rust's `i32` operator `&` on the constant `1` extracts the two's-complement
low bit, which for every `i32` (negative ones included) equals the
Euclidean remainder mod 2; it is modelled as `% 2` on `ℤ` (Lean's `Int.emod`
also lands in `{0, 1}` here).  Rust's `i32` division truncates toward zero,
which is `Int.tdiv`.  (In both functions the dividend `v - v % 2` is even,
so every division convention agrees; `Int.tdiv` is the literal match.) -/

def cube_to_offset (q r : ℤ) : ℤ × ℤ :=
  let col := q + Int.tdiv (r - r % 2) 2
  let row := r
  (col, row)

def offset_to_cube (off_x off_y : ℤ) : ℤ × ℤ × ℤ :=
  let x := off_x - Int.tdiv (off_y - off_y % 2) 2
  let z := off_y
  let y := -x - z
  (x, y, z)

theorem cube_to_offset_offset_to_cube (off_x off_y : ℤ) :
    cube_to_offset (offset_to_cube off_x off_y).1 (offset_to_cube off_x off_y).2.2 =
      (off_x, off_y) := by
  unfold cube_to_offset offset_to_cube
  dsimp only
  rw [Prod.mk.injEq]
  constructor
  · ring
  · rfl

/-! ### Tile and grid data (src/hexes/src/map.rs lines 37-57) -/

structure HexTileData where
  ground_height : ℕ
  wall_height : ℕ
deriving DecidableEq

/-- Source `HexTileData::new(height)`: both heights start equal. -/
def HexTileData.new (height : ℕ) : HexTileData :=
  { ground_height := height, wall_height := height }

structure HexMap where
  tiles : List HexTileData
  width : ℕ
  height : ℕ
  position : ℚ × ℚ
  tallest : ℕ
deriving DecidableEq

/-- The indexing `self.tiles[self.width * y + x]` (in-range for well-formed
grids whenever the code performs it, after its own bounds check). -/
def tileAt (m : HexMap) (x y : ℕ) : HexTileData :=
  m.tiles.getD (m.width * y + x) ⟨0, 0⟩

/-- Wall height of the tile at an in-bounds signed offset coordinate
(`x as usize` / `y as usize` on nonnegative values is `Int.toNat`). -/
def wall_at (m : HexMap) (x y : ℤ) : ℕ :=
  (tileAt m x.toNat y.toNat).wall_height

/-! ### Pixel ↔ axial conversion (src/hexes/src/map.rs lines 82-151) -/

/-- Source `axial_to_pixel` (map.rs lines 139-151).  The code computes
`x = size_x * (sqrt 3 * q + sqrt 3 / 2 * r)` with
`size_x = FLOOR_WIDTH / sqrt 3`; since `size_x * sqrt 3 = FLOOR_WIDTH`
exactly, `x = FLOOR_WIDTH * q + FLOOR_WIDTH / 2 * r`.  The code's
`size_y = 18.66666666666666666` is the `f32` rendering of
`FLOOR_VERT_STEP / 1.5 = 56 / 3` (see the comment at map.rs lines 141-146),
so `y = size_y * (3 / 2 * r)`.  Both get the half-tile offset `18` and the
grid world offset added back. -/
def axial_to_pixel (m : HexMap) (q r : ℚ) : ℚ × ℚ :=
  let size_y : ℚ := 56 / 3
  (FLOOR_WIDTH * q + FLOOR_WIDTH / 2 * r + 18 + m.position.1 * FLOOR_WIDTH,
   size_y * (3 / 2 * r) + 18 + m.position.2 * FLOOR_VERT_STEP)

/-- The fractional axial coordinates computed inside `pixel_to_hex` for one
height layer (map.rs lines 86-109): shift by the half-tile offset `(18,18)`
and the grid world offset, add the layer's depth offset to `y`, then apply
the inverse hex transform.  The code divides by `size_x = FLOOR_WIDTH / sqrt 3`
and `size_y = 56 / 3`, then multiplies by `b0 = sqrt 3 / 3`, `b1 = -1 / 3`,
`b2 = 0`, `b3 = 2 / 3`; exactly,
`q = b0 * (px / size_x) + b1 * (py / size_y) = px / FLOOR_WIDTH - py / (3 * size_y)` and
`r = b2 * (px / size_x) + b3 * (py / size_y) = 2 * py / (3 * size_y)`. -/
def pixel_to_axial_fractional (m : HexMap) (pos : ℚ × ℚ) (height : ℕ) : ℚ × ℚ :=
  let height_offset : ℚ := (height : ℚ) * FLOOR_DEPTH_STEP
  let size_y : ℚ := 56 / 3
  let px := pos.1 - 18 - m.position.1 * FLOOR_WIDTH
  let py := pos.2 - 18 - m.position.2 * FLOOR_VERT_STEP + height_offset
  (px / FLOOR_WIDTH - py / (3 * size_y), 2 * py / (3 * size_y))

/-- The integer offset coordinate a pixel resolves to at one height layer
(map.rs lines 108-115): fractional axial, `s = -r - q`, `cube_round`,
`cube_to_offset`. -/
def hexAt (m : HexMap) (pos : ℚ × ℚ) (height : ℕ) : ℤ × ℤ :=
  let qr := pixel_to_axial_fractional m pos height
  let t := cube_round qr.1 qr.2 (-qr.2 - qr.1)
  cube_to_offset t.1 t.2.1

/-- The bounds test of map.rs line 117 (`x < 0 || x >= width as i32 || y < 0
|| y >= height as i32`). -/
def out_of_bounds_hex (m : HexMap) (c : ℤ × ℤ) : Prop :=
  c.1 < 0 ∨ (m.width : ℤ) ≤ c.1 ∨ c.2 < 0 ∨ (m.height : ℤ) ≤ c.2

instance (m : HexMap) (c : ℤ × ℤ) : Decidable (out_of_bounds_hex m c) := by
  unfold out_of_bounds_hex; infer_instance

/-- One iteration of the `pixel_to_hex` height-layer loop (map.rs lines
85-126): `none` when the layer's coordinate is out of bounds or the tile's
wall height differs from the layer; otherwise the candidate
`(tile_height, x, y)`. -/
def pixel_to_hex_layer (m : HexMap) (pos : ℚ × ℚ) (height : ℕ) : Option (ℕ × ℤ × ℤ) :=
  let c := hexAt m pos height
  if out_of_bounds_hex m c then none
  else
    let tile_height := wall_at m c.1 c.2
    if tile_height = height then some (tile_height, c.1, c.2) else none

/-- The `tallest_height` accumulator update (map.rs lines 127-129):
`tallest_height.is_none() || tile_height > tallest_height.unwrap().0`. -/
def pixel_to_hex_step (m : HexMap) (pos : ℚ × ℚ) (acc : Option (ℕ × ℤ × ℤ))
    (height : ℕ) : Option (ℕ × ℤ × ℤ) :=
  match pixel_to_hex_layer m pos height with
  | none => acc
  | some (tile_height, x, y) =>
    match acc with
    | none => some (tile_height, x, y)
    | some (t0, x0, y0) =>
      if t0 < tile_height then some (tile_height, x, y) else some (t0, x0, y0)

/-- The `for height in 0..=self.tallest` loop, run over the first `n`
layers. -/
def pixel_to_hex_loop (m : HexMap) (pos : ℚ × ℚ) (n : ℕ) : Option (ℕ × ℤ × ℤ) :=
  (List.range n).foldl (pixel_to_hex_step m pos) none

/-- Source `HexMap::pixel_to_hex` (map.rs lines 82-136).  The `&mut self` receiver
performs no writes; see `pixel_to_hex_mut`. -/
def pixel_to_hex (m : HexMap) (pos : ℚ × ℚ) : Option (ℤ × ℤ) :=
  match pixel_to_hex_loop m pos (m.tallest + 1) with
  | some (_, x, y) => some (x, y)
  | none => none

/-- State-passing rendering of the Rust signature
`fn pixel_to_hex(&mut self, pos) -> Option<(i32, i32)>`: the body contains
no assignment through `self`, so the outgoing state is the incoming one. -/
def pixel_to_hex_mut (m : HexMap) (pos : ℚ × ℚ) : HexMap × Option (ℤ × ℤ) :=
  (m, pixel_to_hex m pos)

/-! ### Unfolding and loop lemmas for `pixel_to_hex` -/

theorem pixel_to_hex_layer_eq_def (m : HexMap) (pos : ℚ × ℚ) (h : ℕ) :
    pixel_to_hex_layer m pos h =
      if out_of_bounds_hex m (hexAt m pos h) then none
      else if wall_at m (hexAt m pos h).1 (hexAt m pos h).2 = h then
        some (wall_at m (hexAt m pos h).1 (hexAt m pos h).2,
          (hexAt m pos h).1, (hexAt m pos h).2)
      else none := rfl

theorem hexAt_eq (m : HexMap) (pos : ℚ × ℚ) (h : ℕ) :
    hexAt m pos h =
      cube_to_offset
        (cube_round (pixel_to_axial_fractional m pos h).1 (pixel_to_axial_fractional m pos h).2
          (-(pixel_to_axial_fractional m pos h).2 - (pixel_to_axial_fractional m pos h).1)).1
        (cube_round (pixel_to_axial_fractional m pos h).1 (pixel_to_axial_fractional m pos h).2
          (-(pixel_to_axial_fractional m pos h).2 - (pixel_to_axial_fractional m pos h).1)).2.1 :=
  rfl

theorem pixel_to_hex_layer_fst {m : HexMap} {pos : ℚ × ℚ} {h th : ℕ} {x y : ℤ}
    (H : pixel_to_hex_layer m pos h = some (th, x, y)) : th = h := by
  rw [pixel_to_hex_layer_eq_def] at H
  by_cases h1 : out_of_bounds_hex m (hexAt m pos h)
  · rw [if_pos h1] at H
    cases H
  · rw [if_neg h1] at H
    by_cases h2 : wall_at m (hexAt m pos h).1 (hexAt m pos h).2 = h
    · rw [if_pos h2] at H
      simp only [Option.some.injEq, Prod.mk.injEq] at H
      omega
    · rw [if_neg h2] at H
      cases H

theorem pixel_to_hex_layer_some_iff (m : HexMap) (pos : ℚ × ℚ) (h th : ℕ) (x y : ℤ) :
    pixel_to_hex_layer m pos h = some (th, x, y) ↔
      th = h ∧ hexAt m pos h = (x, y) ∧ ¬out_of_bounds_hex m (x, y) ∧ wall_at m x y = h := by
  rw [pixel_to_hex_layer_eq_def]
  constructor
  · intro H
    by_cases h1 : out_of_bounds_hex m (hexAt m pos h)
    · rw [if_pos h1] at H
      cases H
    · rw [if_neg h1] at H
      by_cases h2 : wall_at m (hexAt m pos h).1 (hexAt m pos h).2 = h
      · rw [if_pos h2] at H
        simp only [Option.some.injEq, Prod.mk.injEq] at H
        obtain ⟨H1, H2, H3⟩ := H
        refine ⟨by omega, ?_, ?_, ?_⟩
        · rw [← H2, ← H3]
        · rw [← H2, ← H3]
          exact h1
        · rw [← H2, ← H3]
          exact h2
      · rw [if_neg h2] at H
        cases H
  · rintro ⟨rfl, hc, hnb, hw⟩
    rw [hc]
    dsimp only
    rw [if_neg hnb, if_pos hw, hw]

theorem pixel_to_hex_step_layer_none {m : HexMap} {pos : ℚ × ℚ} {h : ℕ}
    (acc : Option (ℕ × ℤ × ℤ)) (hl : pixel_to_hex_layer m pos h = none) :
    pixel_to_hex_step m pos acc h = acc := by
  unfold pixel_to_hex_step
  rw [hl]

theorem pixel_to_hex_step_acc_none {m : HexMap} {pos : ℚ × ℚ} {h th : ℕ} {x y : ℤ}
    (hl : pixel_to_hex_layer m pos h = some (th, x, y)) :
    pixel_to_hex_step m pos none h = some (th, x, y) := by
  unfold pixel_to_hex_step
  rw [hl]

theorem pixel_to_hex_step_acc_some {m : HexMap} {pos : ℚ × ℚ} {h th : ℕ} {x y : ℤ}
    (hl : pixel_to_hex_layer m pos h = some (th, x, y)) (t0 : ℕ) (x0 y0 : ℤ) :
    pixel_to_hex_step m pos (some (t0, x0, y0)) h =
      if t0 < th then some (th, x, y) else some (t0, x0, y0) := by
  unfold pixel_to_hex_step
  rw [hl]

theorem pixel_to_hex_loop_zero (m : HexMap) (pos : ℚ × ℚ) :
    pixel_to_hex_loop m pos 0 = none := rfl

theorem pixel_to_hex_loop_succ (m : HexMap) (pos : ℚ × ℚ) (n : ℕ) :
    pixel_to_hex_loop m pos (n + 1) =
      pixel_to_hex_step m pos (pixel_to_hex_loop m pos n) n := by
  unfold pixel_to_hex_loop
  rw [List.range_succ, List.foldl_append, List.foldl_cons, List.foldl_nil]

/-- Any `some` state of the layer loop records a layer index below the
iteration bound, together with that layer's own candidate. -/
theorem pixel_to_hex_loop_some (m : HexMap) (pos : ℚ × ℚ) (n : ℕ) :
    ∀ t x y, pixel_to_hex_loop m pos n = some (t, x, y) →
      t < n ∧ pixel_to_hex_layer m pos t = some (t, x, y) := by
  induction n with
  | zero =>
    intro t x y H
    rw [pixel_to_hex_loop_zero] at H
    cases H
  | succ n ih =>
    intro t x y H
    rw [pixel_to_hex_loop_succ] at H
    cases hl : pixel_to_hex_layer m pos n with
    | none =>
      rw [pixel_to_hex_step_layer_none _ hl] at H
      obtain ⟨h1, h2⟩ := ih t x y H
      exact ⟨by omega, h2⟩
    | some v =>
      obtain ⟨tn, xn, yn⟩ := v
      have htn : tn = n := pixel_to_hex_layer_fst hl
      cases hacc : pixel_to_hex_loop m pos n with
      | none =>
        rw [hacc, pixel_to_hex_step_acc_none hl] at H
        simp only [Option.some.injEq, Prod.mk.injEq] at H
        obtain ⟨H1, H2, H3⟩ := H
        have ht : t = n := by omega
        subst ht
        rw [htn, H2, H3] at hl
        exact ⟨by omega, hl⟩
      | some v0 =>
        obtain ⟨t0, x0, y0⟩ := v0
        have hb : t0 < n := (ih t0 x0 y0 hacc).1
        rw [hacc, pixel_to_hex_step_acc_some hl t0 x0 y0, if_pos (by omega)] at H
        simp only [Option.some.injEq, Prod.mk.injEq] at H
        obtain ⟨H1, H2, H3⟩ := H
        have ht : t = n := by omega
        subst ht
        rw [htn, H2, H3] at hl
        exact ⟨by omega, hl⟩

/-- Full characterization of the layer loop state: it is `some (t, x, y)`
exactly when layer `t` produced that candidate and every later layer below
the bound produced none.  (Candidates at distinct layers carry distinct
wall heights — each equals its own layer — so the code's strictly-greater
replacement keeps exactly the highest-layer candidate.) -/
theorem pixel_to_hex_loop_char (m : HexMap) (pos : ℚ × ℚ) (n : ℕ) :
    ∀ t x y, pixel_to_hex_loop m pos n = some (t, x, y) ↔
      (t < n ∧ pixel_to_hex_layer m pos t = some (t, x, y) ∧
        ∀ h', t < h' → h' < n → pixel_to_hex_layer m pos h' = none) := by
  induction n with
  | zero =>
    intro t x y
    constructor
    · intro H
      rw [pixel_to_hex_loop_zero] at H
      cases H
    · rintro ⟨h1, -, -⟩
      omega
  | succ n ih =>
    intro t x y
    rw [pixel_to_hex_loop_succ]
    cases hl : pixel_to_hex_layer m pos n with
    | none =>
      rw [pixel_to_hex_step_layer_none _ hl, ih t x y]
      constructor
      · rintro ⟨h1, h2, h3⟩
        refine ⟨by omega, h2, fun h' ha hb => ?_⟩
        rcases Nat.lt_succ_iff_lt_or_eq.mp hb with hb' | rfl
        · exact h3 h' ha hb'
        · exact hl
      · rintro ⟨h1, h2, h3⟩
        have ht : t < n := by
          rcases Nat.lt_succ_iff_lt_or_eq.mp h1 with h | rfl
          · exact h
          · rw [hl] at h2
            cases h2
        exact ⟨ht, h2, fun h' ha hb => h3 h' ha (by omega)⟩
    | some v =>
      obtain ⟨tn, xn, yn⟩ := v
      have htn : tn = n := pixel_to_hex_layer_fst hl
      rw [htn] at hl
      have hstep : pixel_to_hex_step m pos (pixel_to_hex_loop m pos n) n =
          some (n, xn, yn) := by
        cases hacc : pixel_to_hex_loop m pos n with
        | none => rw [pixel_to_hex_step_acc_none hl]
        | some v0 =>
          obtain ⟨t0, x0, y0⟩ := v0
          have hb : t0 < n := (pixel_to_hex_loop_some m pos n t0 x0 y0 hacc).1
          rw [pixel_to_hex_step_acc_some hl t0 x0 y0, if_pos hb]
      rw [hstep]
      constructor
      · intro H
        simp only [Option.some.injEq, Prod.mk.injEq] at H
        obtain ⟨H1, H2, H3⟩ := H
        have ht : t = n := by omega
        subst ht
        rw [H2, H3] at hl
        exact ⟨by omega, hl, fun h' ha hb => absurd hb (by omega)⟩
      · rintro ⟨h1, h2, h3⟩
        have ht : t = n := by
          by_contra hne
          have htlt : t < n := by omega
          have := h3 n htlt (by omega)
          rw [this] at hl
          cases hl
        subst ht
        rw [hl] at h2
        simp only [Option.some.injEq, Prod.mk.injEq] at h2
        obtain ⟨-, h2x, h2y⟩ := h2
        rw [h2x, h2y]

/-- C4: `pixel_to_hex` considers a layer-h candidate only when the layer-h
conversion lands on an in-bounds offset coordinate whose tile's wall
height equals h (first conjunct), and returns the candidate whose wall
height (= layer) is greatest, every higher layer up to `tallest` having
produced no candidate (second conjunct).  Candidates at distinct layers
have distinct wall heights, so the strictly-greater replacement test never
actually faces a tie. -/
theorem pixel_to_hex_spec (m : HexMap) (pos : ℚ × ℚ) :
    (∀ h th x y, pixel_to_hex_layer m pos h = some (th, x, y) ↔
        th = h ∧ hexAt m pos h = (x, y) ∧ ¬out_of_bounds_hex m (x, y) ∧
          wall_at m x y = h) ∧
    (∀ x y, pixel_to_hex m pos = some (x, y) ↔
        ∃ h, h ≤ m.tallest ∧ pixel_to_hex_layer m pos h = some (h, x, y) ∧
          ∀ h', h < h' → h' ≤ m.tallest → pixel_to_hex_layer m pos h' = none) := by
  constructor
  · exact fun h th x y => pixel_to_hex_layer_some_iff m pos h th x y
  · intro x y
    unfold pixel_to_hex
    cases hres : pixel_to_hex_loop m pos (m.tallest + 1) with
    | none =>
      constructor
      · intro H
        cases H
      · rintro ⟨h, hh, hlayer, hnone⟩
        have := (pixel_to_hex_loop_char m pos (m.tallest + 1) h x y).mpr
          ⟨by omega, hlayer, fun h' ha hb => hnone h' ha (by omega)⟩
        rw [hres] at this
        cases this
    | some v =>
      obtain ⟨t, x', y'⟩ := v
      obtain ⟨ht, hlt, hnone⟩ := (pixel_to_hex_loop_char m pos (m.tallest + 1) t x' y').mp hres
      constructor
      · intro H
        simp only [Option.some.injEq, Prod.mk.injEq] at H
        obtain ⟨Hx, Hy⟩ := H
        subst Hx
        subst Hy
        exact ⟨t, by omega, hlt, fun h' ha hb => hnone h' ha (by omega)⟩
      · rintro ⟨h, hh, hlayer, hnone'⟩
        have := (pixel_to_hex_loop_char m pos (m.tallest + 1) h x y).mpr
          ⟨by omega, hlayer, fun h' ha hb => hnone' h' ha (by omega)⟩
        rw [hres] at this
        simp only [Option.some.injEq, Prod.mk.injEq] at this
        obtain ⟨-, hx, hy⟩ := this
        rw [hx, hy]

/-- C5: when every height layer from 0 to `tallest` resolves the pixel to
an out-of-bounds offset coordinate, `pixel_to_hex` returns `none`. -/
theorem pixel_to_hex_out_of_bounds_none (m : HexMap) (pos : ℚ × ℚ)
    (H : ∀ h ∈ List.range (m.tallest + 1), out_of_bounds_hex m (hexAt m pos h)) :
    pixel_to_hex m pos = none := by
  unfold pixel_to_hex
  cases hres : pixel_to_hex_loop m pos (m.tallest + 1) with
  | none => rfl
  | some v =>
    obtain ⟨t, x, y⟩ := v
    obtain ⟨ht, hlayer⟩ := pixel_to_hex_loop_some m pos (m.tallest + 1) t x y hres
    have hoob := H t (List.mem_range.mpr ht)
    rw [pixel_to_hex_layer_eq_def, if_pos hoob] at hlayer
    cases hlayer

/-- A 1×1 grid with a single height-0 tile, used as a concrete witness
grid. -/
def oneTileMap : HexMap :=
  { tiles := [⟨0, 0⟩], width := 1, height := 1, position := (0, 0), tallest := 0 }

theorem hexAt_oneTileMap : hexAt oneTileMap (1000, 1000) 0 = (27, 35) := by
  rw [hexAt_eq]
  have hfrac : pixel_to_axial_fractional oneTileMap (1000, 1000) 0 = (2455 / 252, 491 / 14) := by
    norm_num [pixel_to_axial_fractional, oneTileMap, FLOOR_WIDTH, FLOOR_VERT_STEP,
      FLOOR_DEPTH_STEP, Prod.ext_iff]
  rw [hfrac]
  norm_num [cube_round_eq, rust_round, cube_to_offset, Prod.ext_iff]
  decide

theorem pixel_to_hex_out_of_bounds_none_witness :
    pixel_to_hex oneTileMap (1000, 1000) = none :=
  pixel_to_hex_out_of_bounds_none oneTileMap (1000, 1000) (by
    intro h hh
    simp only [List.mem_range] at hh
    have ht : oneTileMap.tallest = 0 := rfl
    have h0 : h = 0 := by omega
    subst h0
    rw [hexAt_oneTileMap]
    simp only [out_of_bounds_hex]
    norm_num [oneTileMap])

/-! ### Round trip: offset → axial → pixel → hex (claims about C1)

The marker-debug path of the source (map.rs lines 253-269) converts an
offset coordinate with `offset_to_cube` and feeds the cube components
`(q, s)` — i.e. cube x and cube z, the axial pair — to `axial_to_pixel`. -/

/-- At layer `h` the inverse transform applied to the forward transform of
the axial coordinate of `(col, row)` yields exactly
`(q - 3h/14, r + 3h/7)`: the grid offset and half-tile shift cancel and
only the height-layer offset `12h` survives, scaled by the inverse
transform. -/
theorem round_trip_fractional (m : HexMap) (col row : ℤ) (h : ℕ) :
    pixel_to_axial_fractional m
        (axial_to_pixel m ((offset_to_cube col row).1 : ℚ) ((offset_to_cube col row).2.2 : ℚ)) h =
      (((offset_to_cube col row).1 : ℚ) - 3 * (h : ℚ) / 14, (row : ℚ) + 3 * (h : ℚ) / 7) := by
  show pixel_to_axial_fractional m
      (axial_to_pixel m ((offset_to_cube col row).1 : ℚ) ((row : ℤ) : ℚ)) h = _
  simp only [pixel_to_axial_fractional, axial_to_pixel, FLOOR_WIDTH, FLOOR_VERT_STEP,
    FLOOR_DEPTH_STEP]
  rw [Prod.mk.injEq]
  constructor <;> ring

/-- At height layers 0 and 1 the per-layer hex lookup of `pixel_to_hex`
inverts the forward pixel transform exactly: the residual offsets
`3h/14 < 1/2` and `3h/7 < 1/2` round away and `cube_round`'s correction
step restores the axial pair unchanged. -/
theorem hexAt_round_trip (m : HexMap) (col row : ℤ) (h : ℕ) (hh : h ≤ 1) :
    hexAt m
        (axial_to_pixel m ((offset_to_cube col row).1 : ℚ) ((offset_to_cube col row).2.2 : ℚ)) h =
      (col, row) := by
  rw [hexAt_eq, round_trip_fractional m col row h]
  dsimp only
  interval_cases h
  · -- layer 0: all three fractional components are integral
    rw [show ((offset_to_cube col row).1 : ℚ) - 3 * (0 : ℕ) / 14 =
        ((offset_to_cube col row).1 : ℚ) by push_cast; ring,
      show ((row : ℤ) : ℚ) + 3 * (0 : ℕ) / 7 = ((row : ℤ) : ℚ) by push_cast; ring,
      show -((row : ℤ) : ℚ) - ((offset_to_cube col row).1 : ℚ) =
        ((-row - (offset_to_cube col row).1 : ℤ) : ℚ) by push_cast; ring]
    rw [cube_round_eq, rust_round_intCast, rust_round_intCast, rust_round_intCast]
    rw [sub_self, abs_zero]
    rw [if_neg (by norm_num), if_neg (by norm_num)]
    exact cube_to_offset_offset_to_cube col row
  · -- layer 1: residuals -3/14, +3/7, -3/14 all round away
    rw [show ((offset_to_cube col row).1 : ℚ) - 3 * (1 : ℕ) / 14 =
        ((offset_to_cube col row).1 : ℚ) + (-3 / 14 : ℚ) by push_cast; ring,
      show ((row : ℤ) : ℚ) + 3 * (1 : ℕ) / 7 = ((row : ℤ) : ℚ) + (3 / 7 : ℚ) by push_cast; ring]
    have r1 : rust_round (((offset_to_cube col row).1 : ℚ) + (-3 / 14 : ℚ)) =
        (offset_to_cube col row).1 :=
      rust_round_int_add _ _ (by norm_num) (by norm_num)
    have r2 : rust_round (((row : ℤ) : ℚ) + (3 / 7 : ℚ)) = row :=
      rust_round_int_add _ _ (by norm_num) (by norm_num)
    have hs3 : -(((row : ℤ) : ℚ) + (3 / 7 : ℚ)) -
        (((offset_to_cube col row).1 : ℚ) + (-3 / 14 : ℚ)) =
        ((-row - (offset_to_cube col row).1 : ℤ) : ℚ) + (-3 / 14 : ℚ) := by
      push_cast
      ring
    rw [hs3]
    have r3 : rust_round (((-row - (offset_to_cube col row).1 : ℤ) : ℚ) + (-3 / 14 : ℚ)) =
        -row - (offset_to_cube col row).1 :=
      rust_round_int_add _ _ (by norm_num) (by norm_num)
    rw [cube_round_eq, r1, r2, r3]
    have e1 : |((offset_to_cube col row).1 : ℚ) -
        (((offset_to_cube col row).1 : ℚ) + (-3 / 14 : ℚ))| = 3 / 14 := by
      rw [show ((offset_to_cube col row).1 : ℚ) -
          (((offset_to_cube col row).1 : ℚ) + (-3 / 14 : ℚ)) = 3 / 14 by ring]
      norm_num
    have e2 : |((row : ℤ) : ℚ) - (((row : ℤ) : ℚ) + (3 / 7 : ℚ))| = 3 / 7 := by
      rw [show ((row : ℤ) : ℚ) - (((row : ℤ) : ℚ) + (3 / 7 : ℚ)) = -(3 / 7) by ring]
      norm_num
    have e3 : |((-row - (offset_to_cube col row).1 : ℤ) : ℚ) -
        (((-row - (offset_to_cube col row).1 : ℤ) : ℚ) + (-3 / 14 : ℚ))| = 3 / 14 := by
      rw [show ((-row - (offset_to_cube col row).1 : ℤ) : ℚ) -
          (((-row - (offset_to_cube col row).1 : ℤ) : ℚ) + (-3 / 14 : ℚ)) = 3 / 14 by ring]
      norm_num
    rw [e1, e2, e3]
    rw [if_neg (by norm_num), if_pos (by norm_num)]
    dsimp only
    rw [show -(offset_to_cube col row).1 - (-row - (offset_to_cube col row).1) = row by ring]
    exact cube_to_offset_offset_to_cube col row

/-- C1 (amended): for an in-bounds offset coordinate whose tile has
`wall_height ≤ 1`, converting to axial coordinates, mapping with
`axial_to_pixel`, and running the wall-height layer's step of
`pixel_to_hex` recovers the original offset coordinate.  (For
`wall_height = 2` the layer offset `3h/7 = 6/7` rounds the row up by one
and the round trip fails; see `round_trip_counterexample`.) -/
theorem round_trip_low_wall_height (m : HexMap) (col row : ℤ)
    (hx0 : 0 ≤ col) (hx1 : col < (m.width : ℤ)) (hy0 : 0 ≤ row) (hy1 : row < (m.height : ℤ))
    (hw : wall_at m col row ≤ 1) :
    pixel_to_hex_layer m
        (axial_to_pixel m ((offset_to_cube col row).1 : ℚ) ((offset_to_cube col row).2.2 : ℚ))
        (wall_at m col row) = some (wall_at m col row, col, row) := by
  rw [pixel_to_hex_layer_eq_def, hexAt_round_trip m col row _ hw]
  rw [if_neg (by
    simp only [out_of_bounds_hex]
    push_neg
    exact ⟨hx0, hx1, hy0, hy1⟩)]
  dsimp only
  rw [if_pos rfl]

/-- C1 witness: a 1×1 grid holding a single wall-height-1 tile, with the
world position the constructor would give it; the round trip at layer 1
recovers the origin tile. -/
theorem round_trip_low_wall_height_witness :
    pixel_to_hex_layer ⟨[HexTileData.new 1], 1, 1, (-1 / 2, -1 / 2), 1⟩
        (axial_to_pixel ⟨[HexTileData.new 1], 1, 1, (-1 / 2, -1 / 2), 1⟩
          ((offset_to_cube 0 0).1 : ℚ) ((offset_to_cube 0 0).2.2 : ℚ))
        (wall_at ⟨[HexTileData.new 1], 1, 1, (-1 / 2, -1 / 2), 1⟩ 0 0) =
      some (wall_at ⟨[HexTileData.new 1], 1, 1, (-1 / 2, -1 / 2), 1⟩ 0 0, 0, 0) :=
  round_trip_low_wall_height ⟨[HexTileData.new 1], 1, 1, (-1 / 2, -1 / 2), 1⟩ 0 0
    (by decide) (by decide) (by decide) (by decide) (by decide)

/-- A 1×1 grid holding a single wall-height-2 tile (the tallest the map
generator can produce), with the world position the constructor would give
it. -/
def tallMap : HexMap :=
  { tiles := [HexTileData.new 2], width := 1, height := 1, position := (-1 / 2, -1 / 2),
    tallest := 2 }

theorem tallMap_pixel :
    axial_to_pixel tallMap ((offset_to_cube 0 0).1 : ℚ) ((offset_to_cube 0 0).2.2 : ℚ) =
      (0, 4) := by
  have h1 : (offset_to_cube 0 0).1 = 0 := by decide
  have h2 : (offset_to_cube 0 0).2.2 = 0 := by decide
  rw [h1, h2]
  norm_num [axial_to_pixel, tallMap, FLOOR_WIDTH, FLOOR_VERT_STEP, Prod.ext_iff]

theorem tallMap_hexAt_0 : hexAt tallMap (0, 4) 0 = (0, 0) := by
  rw [hexAt_eq]
  have hfrac : pixel_to_axial_fractional tallMap (0, 4) 0 = (0, 0) := by
    norm_num [pixel_to_axial_fractional, tallMap, FLOOR_WIDTH, FLOOR_VERT_STEP,
      FLOOR_DEPTH_STEP, Prod.ext_iff]
  rw [hfrac]
  norm_num [cube_round_eq, rust_round, cube_to_offset, Prod.ext_iff]

theorem tallMap_hexAt_1 : hexAt tallMap (0, 4) 1 = (0, 0) := by
  rw [hexAt_eq]
  have hfrac : pixel_to_axial_fractional tallMap (0, 4) 1 = (-3 / 14, 3 / 7) := by
    norm_num [pixel_to_axial_fractional, tallMap, FLOOR_WIDTH, FLOOR_VERT_STEP,
      FLOOR_DEPTH_STEP, Prod.ext_iff]
  rw [hfrac]
  norm_num [cube_round_eq, rust_round, cube_to_offset, Prod.ext_iff]

theorem tallMap_hexAt_2 : hexAt tallMap (0, 4) 2 = (0, 1) := by
  rw [hexAt_eq]
  have hfrac : pixel_to_axial_fractional tallMap (0, 4) 2 = (-3 / 7, 6 / 7) := by
    norm_num [pixel_to_axial_fractional, tallMap, FLOOR_WIDTH, FLOOR_VERT_STEP,
      FLOOR_DEPTH_STEP, Prod.ext_iff]
  rw [hfrac]
  norm_num [cube_round_eq, rust_round, cube_to_offset, Prod.ext_iff]
  have hcond : ¬(|(3 : ℚ) / 7| < |(1 : ℚ) / 7|) := by
    rw [abs_of_nonneg (show (0 : ℚ) ≤ 3 / 7 by norm_num),
      abs_of_nonneg (show (0 : ℚ) ≤ 1 / 7 by norm_num)]
    norm_num
  simp only [if_neg hcond]
  decide

theorem tallMap_layer_0 : pixel_to_hex_layer tallMap (0, 4) 0 = none := by
  rw [pixel_to_hex_layer_eq_def, tallMap_hexAt_0]
  rw [if_neg (by decide), if_neg (by decide)]

theorem tallMap_layer_1 : pixel_to_hex_layer tallMap (0, 4) 1 = none := by
  rw [pixel_to_hex_layer_eq_def, tallMap_hexAt_1]
  rw [if_neg (by decide), if_neg (by decide)]

theorem tallMap_layer_2 : pixel_to_hex_layer tallMap (0, 4) 2 = none := by
  rw [pixel_to_hex_layer_eq_def, tallMap_hexAt_2]
  rw [if_pos (by decide)]

/-- C1 counterexample: on a 1×1 grid whose only tile has wall height 2,
the round trip at the tile's own wall-height layer does not recover the
tile: the layer-2 residual `3·2/7 = 6/7` rounds the row up to 1, which is
out of bounds, so both the layer-2 step and the full `pixel_to_hex` return
`none` instead of `some (0, 0)`. -/
theorem round_trip_counterexample :
    wall_at tallMap 0 0 = 2 ∧
      hexAt tallMap
          (axial_to_pixel tallMap ((offset_to_cube 0 0).1 : ℚ)
            ((offset_to_cube 0 0).2.2 : ℚ)) 2 = (0, 1) ∧
      pixel_to_hex_layer tallMap
          (axial_to_pixel tallMap ((offset_to_cube 0 0).1 : ℚ)
            ((offset_to_cube 0 0).2.2 : ℚ)) (wall_at tallMap 0 0) ≠ some (2, 0, 0) ∧
      pixel_to_hex tallMap
          (axial_to_pixel tallMap ((offset_to_cube 0 0).1 : ℚ)
            ((offset_to_cube 0 0).2.2 : ℚ)) ≠ some (0, 0) := by
  rw [tallMap_pixel]
  have hw : wall_at tallMap 0 0 = 2 := by decide
  rw [hw]
  refine ⟨rfl, tallMap_hexAt_2, ?_, ?_⟩
  · rw [tallMap_layer_2]
    decide
  · have hloop : pixel_to_hex_loop tallMap (0, 4) 3 = none := by
      rw [pixel_to_hex_loop_succ, pixel_to_hex_step_layer_none _ tallMap_layer_2,
        pixel_to_hex_loop_succ, pixel_to_hex_step_layer_none _ tallMap_layer_1,
        pixel_to_hex_loop_succ, pixel_to_hex_step_layer_none _ tallMap_layer_0,
        pixel_to_hex_loop_zero]
    unfold pixel_to_hex
    have h3 : tallMap.tallest + 1 = 3 := rfl
    rw [h3, hloop]
    decide

/-! ### Map generation (src/hexes/src/map.rs lines 60-79) -/

/-- Modelled from the spec: `rand::StdRng::seed_from_u64(100)` is external
library code (the `rand` crate, not part of this repository); the spec
only relies on it being a deterministic pseudo-random stream fixed by the
constant seed 100.  It is modelled as a 64-bit linear congruential
generator seeded with that constant; draw `i` is the `(i+1)`-st state. -/
def std_rng_state (seed : ℕ) : ℕ → ℕ
  | 0 => seed
  | n + 1 => (std_rng_state seed n * 6364136223846793005 + 1442695040888963407) % 2 ^ 64

/-- Modelled from the spec: the raw 64-bit output stream of the seeded
generator. -/
def std_rng_raw (seed : ℕ) (i : ℕ) : ℕ :=
  std_rng_state seed (i + 1)

/-- Modelled from the spec: `Rng::gen_range(lo, hi)` returns a value
uniformly distributed in `[lo, hi)`; only the range contract matters
here. -/
def gen_range (lo hi raw : ℕ) : ℕ :=
  lo + raw % (hi - lo)

theorem gen_range_lt (lo hi raw : ℕ) (h : lo < hi) : gen_range lo hi raw < hi := by
  unfold gen_range
  have := Nat.mod_lt raw (show 0 < hi - lo by omega)
  omega

/-- The per-tile height draws of `HexMap::new(width, height)`:
`rand.gen_range(0, MAX_FLOOR_HEIGHT + 1)` for each of the
`width * height` tiles, from the stream seeded with the constant 100. -/
def hex_map_values (width height : ℕ) : List ℕ :=
  (List.range (width * height)).map fun i =>
    gen_range 0 (MAX_FLOOR_HEIGHT + 1) (std_rng_raw 100 i)

/-- Source `HexMap::new` (map.rs lines 60-79): one tile per draw with both
heights equal to the draw, `tallest` the running maximum of the draws
(starting from 0), and the grid centered at the world origin. -/
def HexMap.new (width height : ℕ) : HexMap :=
  { tiles := (hex_map_values width height).map HexTileData.new
    width := width
    height := height
    position := (-(width : ℚ) / 2, -(height : ℚ) / 2)
    tallest := (hex_map_values width height).foldl Nat.max 0 }

theorem foldl_max_le (l : List ℕ) (a : ℕ) :
    a ≤ l.foldl Nat.max a ∧ ∀ x ∈ l, x ≤ l.foldl Nat.max a := by
  induction l generalizing a with
  | nil => exact ⟨Nat.le_refl a, fun x hx => absurd hx (List.not_mem_nil x)⟩
  | cons b t ih =>
    obtain ⟨ih1, ih2⟩ := ih (Nat.max a b)
    refine ⟨le_trans (Nat.le_max_left a b) ih1, fun x hx => ?_⟩
    rcases List.mem_cons.mp hx with rfl | hx'
    · exact le_trans (Nat.le_max_right a x) ih1
    · exact ih2 x hx'

theorem foldl_max_mem (l : List ℕ) (a : ℕ) : l.foldl Nat.max a ∈ a :: l := by
  induction l generalizing a with
  | nil => exact List.mem_singleton.mpr rfl
  | cons b t ih =>
    have := ih (Nat.max a b)
    rcases List.mem_cons.mp this with h | h
    · have hm : Nat.max a b = a ∨ Nat.max a b = b := by
        rcases Nat.le_total a b with hab | hab
        · exact Or.inr (Nat.max_eq_right hab)
        · exact Or.inl (Nat.max_eq_left hab)
      rcases hm with hm | hm
      · exact List.mem_cons.mpr (Or.inl (by rw [List.foldl_cons, h, hm]))
      · refine List.mem_cons.mpr (Or.inr (List.mem_cons.mpr (Or.inl ?_)))
        rw [List.foldl_cons, h, hm]
    · exact List.mem_cons.mpr (Or.inr (List.mem_cons.mpr (Or.inr (by rw [List.foldl_cons]; exact h))))

/-- C6: map construction is deterministic — two grids built by
`HexMap.new` from the same dimensions agree in every field (the generator
is seeded with the fixed constant 100, so the embedded constructor is a
pure function of the dimensions alone). -/
theorem hex_map_new_deterministic (width height : ℕ) (g1 g2 : HexMap)
    (h1 : g1 = HexMap.new width height) (h2 : g2 = HexMap.new width height) :
    g1.tiles = g2.tiles ∧ g1.width = g2.width ∧ g1.height = g2.height ∧
      g1.position = g2.position ∧ g1.tallest = g2.tallest := by
  subst h1
  subst h2
  exact ⟨rfl, rfl, rfl, rfl, rfl⟩

theorem hex_map_new_deterministic_witness :
    (HexMap.new 2 3).tiles = (HexMap.new 2 3).tiles ∧
      (HexMap.new 2 3).width = (HexMap.new 2 3).width ∧
      (HexMap.new 2 3).height = (HexMap.new 2 3).height ∧
      (HexMap.new 2 3).position = (HexMap.new 2 3).position ∧
      (HexMap.new 2 3).tallest = (HexMap.new 2 3).tallest :=
  hex_map_new_deterministic 2 3 (HexMap.new 2 3) (HexMap.new 2 3) rfl rfl

/-- C7: every tile of a new grid has equal ground and wall heights, wall
height at most `MAX_FLOOR_HEIGHT` and at most `tallest`; `tallest` is the
maximum drawn wall height (it is one of the wall heights unless it is the
starting value 0 of the running maximum); there is one tile per grid cell;
and the grid is centered at the world origin. -/
theorem hex_map_new_spec (width height : ℕ) :
    (HexMap.new width height).tiles.length = width * height ∧
      (∀ t ∈ (HexMap.new width height).tiles,
        t.ground_height = t.wall_height ∧ t.wall_height ≤ MAX_FLOOR_HEIGHT ∧
          t.wall_height ≤ (HexMap.new width height).tallest) ∧
      (HexMap.new width height).tallest ∈
        0 :: (HexMap.new width height).tiles.map HexTileData.wall_height ∧
      (HexMap.new width height).position = (-(width : ℚ) / 2, -(height : ℚ) / 2) := by
  refine ⟨?_, ?_, ?_, rfl⟩
  · show ((hex_map_values width height).map HexTileData.new).length = width * height
    rw [List.length_map]
    unfold hex_map_values
    rw [List.length_map, List.length_range]
  · intro t ht
    have ht' : t ∈ (hex_map_values width height).map HexTileData.new := ht
    obtain ⟨v, hv, rfl⟩ := List.mem_map.mp ht'
    refine ⟨rfl, ?_, ?_⟩
    · obtain ⟨i, -, rfl⟩ := List.mem_map.mp hv
      have := gen_range_lt 0 (MAX_FLOOR_HEIGHT + 1) (std_rng_raw 100 i) (by omega)
      show gen_range 0 (MAX_FLOOR_HEIGHT + 1) (std_rng_raw 100 i) ≤ MAX_FLOOR_HEIGHT
      omega
    · exact (foldl_max_le (hex_map_values width height) 0).2 v hv
  · show (hex_map_values width height).foldl Nat.max 0 ∈
      0 :: ((hex_map_values width height).map HexTileData.new).map HexTileData.wall_height
    rw [List.map_map]
    have hid : HexTileData.wall_height ∘ HexTileData.new = id := rfl
    rw [hid, List.map_id]
    exact foldl_max_mem (hex_map_values width height) 0

/-! ### Draw primitives (src/hexes/src/map.rs lines 190-403)

`tetra::graphics::Color` and `vermarine_lib::rendering::draw_buffer`'s
`DrawCommand` are narrow external value types: a command is a texture
handle plus position, draw-layer tag, isometric flag and tint, exactly the
fields the source sets through the builder calls
`DrawCommand::new(tex).position(..).draw_layer(..).draw_iso(true).color(..)`. -/

structure Color where
  r : ℚ
  g : ℚ
  b : ℚ
  a : ℚ
deriving DecidableEq

def Color.rgba (r g b a : ℚ) : Color := ⟨r, g, b, a⟩

def Color.WHITE : Color := ⟨1, 1, 1, 1⟩

def Color.RED : Color := ⟨1, 0, 0, 1⟩

structure DrawCommand where
  texture : ℕ
  position : ℚ × ℚ × ℚ
  draw_layer : ℚ
  draw_iso : Bool
  color : Color
deriving DecidableEq

/-- Source `create_wall_draw_cmd` (map.rs lines 350-368). -/
def create_wall_draw_cmd (x y : ℚ) (height : ℚ) (color : ℕ) (texture : ℕ) : DrawCommand :=
  let c :=
    if color = 1 then Color.rgba 0.5 0.5 0.5 1
    else if color = 2 then Color.rgba 0.7 0.7 0.7 1
    else Color.rgba 1 1 1 1
  { texture := texture, position := (x, y, height), draw_layer := draw_layers.WALL,
    draw_iso := true, color := c }

/-- Source `create_wall_brick_draw_cmd` (map.rs lines 382-403). -/
def create_wall_brick_draw_cmd (x y : ℚ) (height : ℚ) (color : ℕ) (texture : ℕ) : DrawCommand :=
  let c :=
    if color = 1 then Color.rgba 0.3 0.3 0.3 1
    else if color = 2 then Color.rgba 0.55 0.55 0.55 1
    else if color = 3 then Color.rgba 0.7 0.7 0.7 1
    else Color.rgba 0.80 0.80 0.80 1
  { texture := texture, position := (x, y, height), draw_layer := draw_layers.WALL,
    draw_iso := true, color := c }

/-- Source `create_floor_draw_cmd` (map.rs lines 282-300). -/
def create_floor_draw_cmd (x y : ℚ) (height : ℚ) (color : ℕ) (texture : ℕ) : DrawCommand :=
  let c :=
    if color = 0 then Color.rgba 0.55 0.55 0.55 1
    else if color = 1 then Color.rgba 0.8 0.8 0.8 1
    else Color.rgba 1 1 1 1
  { texture := texture, position := (x, y, height), draw_layer := draw_layers.FLOOR,
    draw_iso := true, color := c }

/-- Source `create_brick_floor_draw_cmd` (map.rs lines 310-331). -/
def create_brick_floor_draw_cmd (x y : ℚ) (height : ℚ) (color : ℕ) (texture : ℕ) : DrawCommand :=
  let c :=
    if color = 1 then Color.rgba 0.65 0.65 0.65 1
    else if color = 2 then Color.rgba 0.8 0.8 0.8 1
    else if color = 3 then Color.rgba 0.9 0.9 0.9 1
    else Color.rgba 1 1 1 1
  { texture := texture, position := (x, y, height), draw_layer := draw_layers.FLOOR,
    draw_iso := true, color := c }

/-- Source `render_hex_top` (map.rs lines 274-280): one floor primitive, with a
tint override only when the highlight color is not white. -/
def render_hex_top (x y : ℚ) (height : ℕ) (texture : ℕ) (color : Color) : DrawCommand :=
  let dc := create_floor_draw_cmd x y ((height : ℚ) * FLOOR_DEPTH_STEP) height texture
  if color ≠ Color.WHITE then { dc with color := color } else dc

/-- Source `render_hex_brick_top` (map.rs lines 302-308). -/
def render_hex_brick_top (x y : ℚ) (height : ℕ) (texture : ℕ) (color : Color) : DrawCommand :=
  let dc := create_brick_floor_draw_cmd x y ((height : ℚ) * FLOOR_DEPTH_STEP) height texture
  if color ≠ Color.WHITE then { dc with color := color } else dc

/-- Source `render_hex_walls` (map.rs lines 333-348): one wall primitive per unit
of ground height, shaded alternately. -/
def render_hex_walls (x y : ℚ) (tile : HexTileData) (wall_tex : ℕ) : List DrawCommand :=
  let height := tile.ground_height
  let start_height : ℚ := (height : ℚ) * FLOOR_DEPTH_STEP - WALL_VERT_OFFSET
  (List.range height).map fun (i : ℕ) =>
    let color := if (height - i) % 2 = 1 then 1 else 2
    create_wall_draw_cmd x y (start_height - (i : ℚ) * WALL_VERT_STEP) color wall_tex

/-- Source `render_hex_bricks` (map.rs lines 370-380): one brick primitive per
unit of `wall_height - ground_height` when the wall rises above the
ground, on a 4-level brightness ramp keyed by `ground_height + i`. -/
def render_hex_bricks (x y : ℚ) (tile : HexTileData) (brick_tex : ℕ) : List DrawCommand :=
  let start_height : ℚ := (tile.ground_height : ℚ) * FLOOR_DEPTH_STEP - WALL_VERT_STEP
  if tile.ground_height < tile.wall_height then
    (List.range' 1 (tile.wall_height - tile.ground_height)).map fun (i : ℕ) =>
      create_wall_brick_draw_cmd x y (start_height + (i : ℚ) * WALL_VERT_STEP)
        (tile.ground_height + i) brick_tex
  else []

/-! ### The per-row three-pass loop of `render_hex_map`
(map.rs lines 204-251)

The row loop runs `for i in 0..3 { for x in startx..=endx { .. } }` with
pass `i = 0` emitting walls, `i = 1` bricks and `i = 2` the top/floor
primitive.  The camera window bounds `startx..=endx` and the hit-test
result `selected_hex` are inputs of the loop, taken here as parameters. -/

/-- The tile's world draw position (map.rs lines 207-221): odd rows are
staggered by half a tile. -/
def tile_draw_pos (m : HexMap) (x y : ℕ) : ℚ × ℚ :=
  ((if y % 2 = 1 then (x : ℚ) * FLOOR_WIDTH + FLOOR_WIDTH / 2 else (x : ℚ) * FLOOR_WIDTH) +
      m.position.1 * FLOOR_WIDTH,
    (y : ℚ) * FLOOR_VERT_STEP + m.position.2 * FLOOR_VERT_STEP)

/-- The selection tint (map.rs lines 231-240).  The source compares
`x == sel_x as usize && y == sel_y as usize`; for the tiny in-window tile
indices this agrees with signed equality (a negative selection cast to
`usize` is astronomically large and never equal). -/
def sel_color (selected_hex : Option (ℤ × ℤ)) (x y : ℕ) : Color :=
  match selected_hex with
  | some s => if (x : ℤ) = s.1 ∧ (y : ℤ) = s.2 then Color.RED else Color.WHITE
  | none => Color.WHITE

/-- The `i = 2` pass body for one tile (map.rs lines 243-247): a flat
floor top when `ground_height >= wall_height`, otherwise a brick floor at
the wall height. -/
def render_hex_tile_top (x y : ℚ) (tile : HexTileData) (top_tex brick_floor_tex : ℕ)
    (color : Color) : DrawCommand :=
  if tile.ground_height ≥ tile.wall_height then
    render_hex_top x y tile.ground_height top_tex color
  else
    render_hex_brick_top x y tile.wall_height brick_floor_tex color

def top_pass_cmd (m : HexMap) (selected_hex : Option (ℤ × ℤ)) (x y : ℕ)
    (top_tex brick_floor_tex : ℕ) : DrawCommand :=
  render_hex_tile_top (tile_draw_pos m x y).1 (tile_draw_pos m x y).2 (tileAt m x y)
    top_tex brick_floor_tex (sel_color selected_hex x y)

/-- The inclusive Rust range `startx..=endx` (empty when
`endx < startx`). -/
def x_range (startx endx : ℕ) : List ℕ :=
  List.range' startx (endx + 1 - startx)

/-- One row of the three-pass loop (map.rs lines 204-251). -/
def render_row (m : HexMap) (selected_hex : Option (ℤ × ℤ)) (y startx endx : ℕ)
    (top_tex wall_tex brick_tex brick_floor_tex : ℕ) : List DrawCommand :=
  (List.range 3).flatMap fun i =>
    (x_range startx endx).flatMap fun x =>
      if i = 0 then
        render_hex_walls (tile_draw_pos m x y).1 (tile_draw_pos m x y).2 (tileAt m x y) wall_tex
      else if i = 1 then
        render_hex_bricks (tile_draw_pos m x y).1 (tile_draw_pos m x y).2 (tileAt m x y) brick_tex
      else
        [top_pass_cmd m selected_hex x y top_tex brick_floor_tex]

theorem flatMap_singleton_eq_map {α β : Type} (l : List α) (f : α → β) :
    (l.flatMap fun x => [f x]) = l.map f := by
  induction l with
  | nil => rfl
  | cons a t ih => simp [List.flatMap_cons, ih]

theorem x_range_self (x : ℕ) : x_range x x = [x] := by
  unfold x_range
  rw [show x + 1 - x = 1 by omega]
  rfl

/-- C8: one row of the renderer is exactly the wall pass, then the
wall-brick pass, then the top/floor pass, each scanning the visible
columns in order; for a single-column window this is the tile's wall
primitives, then its brick primitives, then its single top primitive. -/
theorem render_row_pass_ordering (m : HexMap) (selected_hex : Option (ℤ × ℤ))
    (y startx endx tt wt bt bft : ℕ) :
    (render_row m selected_hex y startx endx tt wt bt bft =
      ((x_range startx endx).flatMap fun x =>
        render_hex_walls (tile_draw_pos m x y).1 (tile_draw_pos m x y).2 (tileAt m x y) wt) ++
      ((x_range startx endx).flatMap fun x =>
        render_hex_bricks (tile_draw_pos m x y).1 (tile_draw_pos m x y).2 (tileAt m x y) bt) ++
      ((x_range startx endx).map fun x => top_pass_cmd m selected_hex x y tt bft)) ∧
    ∀ x : ℕ, render_row m selected_hex y x x tt wt bt bft =
      render_hex_walls (tile_draw_pos m x y).1 (tile_draw_pos m x y).2 (tileAt m x y) wt ++
      (render_hex_bricks (tile_draw_pos m x y).1 (tile_draw_pos m x y).2 (tileAt m x y) bt ++
        [top_pass_cmd m selected_hex x y tt bft]) := by
  have key : ∀ sx ex : ℕ, render_row m selected_hex y sx ex tt wt bt bft =
      ((x_range sx ex).flatMap fun x =>
        render_hex_walls (tile_draw_pos m x y).1 (tile_draw_pos m x y).2 (tileAt m x y) wt) ++
      ((x_range sx ex).flatMap fun x =>
        render_hex_bricks (tile_draw_pos m x y).1 (tile_draw_pos m x y).2 (tileAt m x y) bt) ++
      ((x_range sx ex).map fun x => top_pass_cmd m selected_hex x y tt bft) := by
    intro sx ex
    unfold render_row
    rw [show List.range 3 = [0, 1, 2] from rfl]
    simp only [List.flatMap_cons, List.flatMap_nil, List.append_nil]
    norm_num
    rw [flatMap_singleton_eq_map]
  refine ⟨key startx endx, fun x => ?_⟩
  rw [key x x, x_range_self]
  simp [List.flatMap_cons]

/-- C9: a tile with `ground_height = 1` and `wall_height = 3` produces
exactly 1 wall primitive, exactly 2 wall-brick primitives, and a single
top primitive which is the brick-floor command at depth
`3 * FLOOR_DEPTH_STEP = 36`. -/
theorem tile_ground1_wall3_primitives (x y : ℚ) (wt bt tt bft : ℕ) (color : Color) :
    (render_hex_walls x y ⟨1, 3⟩ wt).length = 1 ∧
      (render_hex_bricks x y ⟨1, 3⟩ bt).length = 2 ∧
      render_hex_tile_top x y ⟨1, 3⟩ tt bft color = render_hex_brick_top x y 3 bft color ∧
      (render_hex_tile_top x y ⟨1, 3⟩ tt bft color).position = (x, y, 36) ∧
      (render_hex_tile_top x y ⟨1, 3⟩ tt bft color).texture = bft ∧
      (3 : ℚ) * FLOOR_DEPTH_STEP = 36 := by
  have htop : render_hex_tile_top x y ⟨1, 3⟩ tt bft color =
      render_hex_brick_top x y 3 bft color := by
    unfold render_hex_tile_top
    rw [if_neg (by norm_num)]
  have hpos : ((3 : ℕ) : ℚ) * FLOOR_DEPTH_STEP = 36 := by norm_num [FLOOR_DEPTH_STEP]
  refine ⟨?_, ?_, htop, ?_, ?_, by norm_num [FLOOR_DEPTH_STEP]⟩
  · unfold render_hex_walls
    rw [List.length_map, List.length_range]
  · unfold render_hex_bricks
    rw [if_pos (by norm_num)]
    rw [List.length_map, List.length_range']
    rfl
  · rw [htop]
    by_cases hc : color = Color.WHITE <;>
      simp [render_hex_brick_top, create_brick_floor_draw_cmd, hc, hpos] <;>
        norm_num [FLOOR_DEPTH_STEP]
  · rw [htop]
    by_cases hc : color = Color.WHITE <;>
      simp [render_hex_brick_top, create_brick_floor_draw_cmd, hc]

/-- C10: `pixel_to_hex` takes the grid by mutable reference but performs
no writes: in the state-passing embedding the outgoing grid coincides with
the incoming one in every field, and the second component is the pure
query result. -/
theorem pixel_to_hex_preserves_map (m : HexMap) (pos : ℚ × ℚ) :
    (pixel_to_hex_mut m pos).1.tiles = m.tiles ∧
      (pixel_to_hex_mut m pos).1.width = m.width ∧
      (pixel_to_hex_mut m pos).1.height = m.height ∧
      (pixel_to_hex_mut m pos).1.position = m.position ∧
      (pixel_to_hex_mut m pos).1.tallest = m.tallest ∧
      (pixel_to_hex_mut m pos).2 = pixel_to_hex m pos :=
  ⟨rfl, rfl, rfl, rfl, rfl, rfl⟩
